import Mathlib

/-!
Verification of the government-project tracking simulation
(`src/government.cpp`).

The C++ core is a command pattern: a `GovernmentProject` record holds
mutable state (name, department, funded flag, budget, completed flag)
and an ordered list of `ProjectAction`s; `process` applies each owned
action in order to the project itself; a `ProjectRegistry` applies
`process` to each owned project in order.

We embed the code shallowly: the polymorphic action hierarchy becomes a
closed inductive type (the six concrete subclasses are its
constructors), mutation becomes explicit state passing, and the C++
`double` budget is modelled as `ℚ` (the programs and tests only ever use
values and arithmetic that are exact in both).
-/

namespace Government

/-- The closed set of `ProjectAction` subclasses in `government.cpp`:
`ApproveFunding`, `AdjustBudget`, `CompleteProject`,
`ConditionalApproval` (owning one inner action), `DepartmentTransfer`,
`BudgetFreeze`. -/
inductive ProjectAction where
  | approveFunding : ProjectAction
  | adjustBudget (adjustment : ℚ) : ProjectAction
  | completeProject : ProjectAction
  | conditionalApproval (action : ProjectAction) (min_budget : ℚ) : ProjectAction
  | departmentTransfer (new_department : String) : ProjectAction
  | budgetFreeze : ProjectAction
deriving DecidableEq, Repr

/-- The `GovernmentProject` record: its five data fields plus the owned
action list, exactly as in the C++ class. -/
structure GovernmentProject where
  project_name : String
  department : String
  is_funded : Bool
  budget : ℚ
  is_completed : Bool
  actions : List ProjectAction
deriving DecidableEq, Repr

/-- The `GovernmentProject` constructor: takes name, department, funded
flag, initial budget and action list, and initialises `is_completed` to
`false` (the constructor's initialiser list hard-codes
`is_completed(false)`). -/
def GovernmentProject.make (name : String) (dept : String) (funded : Bool)
    (budget_amount : ℚ) (acts : List ProjectAction) : GovernmentProject :=
  { project_name := name
    department := dept
    is_funded := funded
    budget := budget_amount
    is_completed := false
    actions := acts }

/-- `ProjectAction::execute`, dispatched over the six subclasses:
  * `ApproveFunding::execute` calls `setFunded(true)`;
  * `AdjustBudget::execute` calls `setBudget(getBudget() + adjustment)`;
  * `CompleteProject::execute` calls `setCompleted(true)` when
    `isFunded()`, else does nothing;
  * `ConditionalApproval::execute` runs the inner action when
    `getBudget() >= min_budget`, else does nothing;
  * `DepartmentTransfer::execute` calls `setDepartment(new_department)`;
  * `BudgetFreeze::execute` calls `setBudget(0)`. -/
def ProjectAction.execute : ProjectAction → GovernmentProject → GovernmentProject
  | .approveFunding, p => { p with is_funded := true }
  | .adjustBudget adj, p => { p with budget := p.budget + adj }
  | .completeProject, p =>
      if p.is_funded then { p with is_completed := true } else p
  | .conditionalApproval act min_budget, p =>
      if p.budget ≥ min_budget then act.execute p else p
  | .departmentTransfer dept, p => { p with department := dept }
  | .budgetFreeze, p => { p with budget := 0 }

/-- `GovernmentProject::process`: iterate over the owned `actions`
vector in order, executing each action on the project itself. -/
def GovernmentProject.process (p : GovernmentProject) : GovernmentProject :=
  p.actions.foldl (fun st a => a.execute st) p

/-- `ProjectRegistry`: an ordered collection of owned projects. -/
structure ProjectRegistry where
  projects : List GovernmentProject
deriving DecidableEq, Repr

/-- `ProjectRegistry::addProject`: `projects.push_back(project)`. -/
def ProjectRegistry.addProject (r : ProjectRegistry)
    (p : GovernmentProject) : ProjectRegistry :=
  { projects := r.projects ++ [p] }

/-- `ProjectRegistry::processAll`: call `process` on each owned project
in insertion order.  Each `process` call touches only that project, so
the loop is a `map`. -/
def ProjectRegistry.processAll (r : ProjectRegistry) : ProjectRegistry :=
  { projects := r.projects.map GovernmentProject.process }

/-- Modelled from the spec (for the refinement half of claim C1): the
per-variant effect table of spec section 4.1, transcribed from the
spec's own words:
| ApproveFunding | sets funded = true |
| AdjustBudget(d) | budget += d |
| CompleteProject | if funded == true, set completed = true; else no-op |
| ConditionalApproval(action, min) | if budget ≥ min, apply inner action; else no-op |
| DepartmentTransfer(name) | department := name |
| BudgetFreeze | budget := 0 | -/
def specVariantEffect : ProjectAction → GovernmentProject → GovernmentProject
  | .approveFunding, p => { p with is_funded := true }
  | .adjustBudget d, p => { p with budget := p.budget + d }
  | .completeProject, p =>
      if p.is_funded = true then { p with is_completed := true } else p
  | .conditionalApproval act min_budget, p =>
      if p.budget ≥ min_budget then specVariantEffect act p else p
  | .departmentTransfer name, p => { p with department := name }
  | .budgetFreeze, p => { p with budget := 0 }

/-- Each variant's `execute` agrees with the spec's section 4.1 table. -/
theorem execute_eq_specVariantEffect (a : ProjectAction) (p : GovernmentProject) :
    a.execute p = specVariantEffect a p := by
  induction a generalizing p with
  | approveFunding => rfl
  | adjustBudget d => rfl
  | completeProject => rfl
  | conditionalApproval act min_budget ih =>
      simp only [ProjectAction.execute, specVariantEffect]
      split <;> simp [ih]
  | departmentTransfer name => rfl
  | budgetFreeze => rfl

/-- Every single-action execution preserves the project name: no variant
of `ProjectAction::execute` ever writes `project_name`. -/
theorem execute_preserves_name (a : ProjectAction) (p : GovernmentProject) :
    (a.execute p).project_name = p.project_name := by
  induction a generalizing p with
  | approveFunding => rfl
  | adjustBudget d => rfl
  | completeProject =>
      simp only [ProjectAction.execute]
      split <;> rfl
  | conditionalApproval act min_budget ih =>
      simp only [ProjectAction.execute]
      split
      · exact ih p
      · rfl
  | departmentTransfer dept => rfl
  | budgetFreeze => rfl

/-- Folding `execute` over any action list preserves the project name. -/
theorem foldl_execute_preserves_name (l : List ProjectAction) (st : GovernmentProject) :
    (l.foldl (fun s a => a.execute s) st).project_name = st.project_name := by
  induction l generalizing st with
  | nil => rfl
  | cons a l ih =>
      simp only [List.foldl_cons]
      rw [ih, execute_preserves_name]

/-- C1: one call to `process` applies each owned action exactly once, in
insertion order, and the resulting state is the left-to-right fold of the
per-variant effects of spec section 4.1 starting from the project's
initial state. -/
theorem process_eq_fold_of_spec_effects (p : GovernmentProject) :
    p.process = p.actions.foldl (fun st a => specVariantEffect a st) p := by
  unfold GovernmentProject.process
  simp only [execute_eq_specVariantEffect]

/-- C2: `CompleteProject::execute` sets `completed` to `true` exactly
when `funded` is `true` at execution time; on an unfunded project it
leaves the entire state unchanged (silent no-op). -/
theorem completeProject_sets_completed_iff_funded (p : GovernmentProject) :
    (p.is_funded = true →
       ProjectAction.completeProject.execute p = { p with is_completed := true }) ∧
    (p.is_funded = false → ProjectAction.completeProject.execute p = p) := by
  constructor <;> intro h <;> simp [ProjectAction.execute, h]

/-- Witness for C2 at a concrete funded project. -/
theorem completeProject_sets_completed_iff_funded_witness :
    ProjectAction.completeProject.execute
        (GovernmentProject.make "City Hospital" "Health" true 2000000 []) =
      { GovernmentProject.make "City Hospital" "Health" true 2000000 [] with
          is_completed := true } :=
  (completeProject_sets_completed_iff_funded _).1 rfl

/-- C3: `ConditionalApproval::execute` applies the inner action exactly
when `budget ≥ min_budget`, otherwise leaves the state unchanged; the
comparison is inclusive, so a budget exactly equal to the threshold
triggers the inner action. -/
theorem conditionalApproval_inclusive_threshold (p : GovernmentProject)
    (inner : ProjectAction) (min_budget : ℚ) :
    ((ProjectAction.conditionalApproval inner min_budget).execute p =
       if min_budget ≤ p.budget then inner.execute p else p) ∧
    (p.budget = min_budget →
       (ProjectAction.conditionalApproval inner min_budget).execute p =
         inner.execute p) := by
  refine ⟨rfl, fun h => ?_⟩
  simp [ProjectAction.execute, h]

/-- Witness for C3 at a budget exactly equal to the threshold. -/
theorem conditionalApproval_inclusive_threshold_witness :
    (ProjectAction.conditionalApproval .approveFunding 5).execute
        (GovernmentProject.make "P" "D" false 5 []) =
      ProjectAction.approveFunding.execute
        (GovernmentProject.make "P" "D" false 5 []) :=
  (conditionalApproval_inclusive_threshold _ _ _).2 rfl

/-- C4: `AdjustBudget::execute` sets the budget to the old budget plus
the delta, leaving every other field unchanged, with no lower bound: a
negative sum yields a negative budget, never a clamped one. -/
theorem adjustBudget_no_floor (p : GovernmentProject) (d : ℚ) :
    ((ProjectAction.adjustBudget d).execute p =
       { p with budget := p.budget + d }) ∧
    (p.budget + d < 0 →
       ((ProjectAction.adjustBudget d).execute p).budget < 0) := by
  exact ⟨rfl, fun h => h⟩

/-- Witness for C4: deducting 2 from a budget of 1 goes negative. -/
theorem adjustBudget_no_floor_witness :
    ((ProjectAction.adjustBudget (-2)).execute
        (GovernmentProject.make "P" "D" false 1 [])).budget < 0 :=
  (adjustBudget_no_floor _ _).2 (by norm_num [GovernmentProject.make])

/-- C5: `BudgetFreeze::execute` sets the budget to 0 unconditionally,
leaving every other field unchanged, regardless of the prior budget. -/
theorem budgetFreeze_unconditional_zero (p : GovernmentProject) :
    ProjectAction.budgetFreeze.execute p = { p with budget := 0 } := rfl

/-- C6: `ApproveFunding::execute` is idempotent — executing it twice
equals executing it once — and afterwards `funded` is `true`. -/
theorem approveFunding_idempotent (p : GovernmentProject) :
    ProjectAction.approveFunding.execute (ProjectAction.approveFunding.execute p) =
      ProjectAction.approveFunding.execute p ∧
    (ProjectAction.approveFunding.execute p).is_funded = true :=
  ⟨rfl, rfl⟩

/-- C7: `processAll` processes each owned project independently and in
insertion order (it is a `map` of `process` over the project list, so
project `i`'s final state depends only on project `i`'s own state), and
permuting the registry's projects permutes the results identically. -/
theorem processAll_independent_of_order (r r' : ProjectRegistry)
    (h : r.projects.Perm r'.projects) :
    (r.processAll.projects = r.projects.map GovernmentProject.process) ∧
    (∀ i : Nat, r.processAll.projects[i]? =
       (r.projects[i]?).map GovernmentProject.process) ∧
    r.processAll.projects.Perm r'.processAll.projects := by
  refine ⟨rfl, fun i => ?_, h.map _⟩
  simp [ProjectRegistry.processAll]

/-- Witness for C7 on a concrete two-project registry and its swap. -/
theorem processAll_independent_of_order_witness :
    (ProjectRegistry.mk [GovernmentProject.make "A" "D" false 1 [],
        GovernmentProject.make "B" "E" true 2 []]).processAll.projects.Perm
      (ProjectRegistry.mk [GovernmentProject.make "B" "E" true 2 [],
          GovernmentProject.make "A" "D" false 1 []]).processAll.projects :=
  (processAll_independent_of_order _ _ (List.Perm.swap _ _ _)).2.2

/-- C8: the `GovernmentProject` constructor always initialises
`completed` to `false`, whatever the arguments. -/
theorem make_completed_false (name dept : String) (funded : Bool)
    (b : ℚ) (acts : List ProjectAction) :
    (GovernmentProject.make name dept funded b acts).is_completed = false := rfl

/-- C9: no action variant ever modifies the project name — including
arbitrarily nested `ConditionalApproval` — and hence `process` leaves
the name unchanged for every action list. -/
theorem name_never_modified :
    (∀ (a : ProjectAction) (p : GovernmentProject),
        (a.execute p).project_name = p.project_name) ∧
    ∀ p : GovernmentProject, p.process.project_name = p.project_name :=
  ⟨execute_preserves_name, fun p => foldl_execute_preserves_name p.actions p⟩

/-- C10: `completed` is monotone under action execution: once `true`, it
stays `true` after any action, including nested `ConditionalApproval`;
no variant resets it to `false`. -/
theorem completed_monotone (a : ProjectAction) (p : GovernmentProject)
    (h : p.is_completed = true) : (a.execute p).is_completed = true := by
  induction a generalizing p with
  | approveFunding => exact h
  | adjustBudget d => exact h
  | completeProject =>
      simp only [ProjectAction.execute]
      split
      · rfl
      · exact h
  | conditionalApproval act min_budget ih =>
      simp only [ProjectAction.execute]
      split
      · exact ih p h
      · exact h
  | departmentTransfer dept => exact h
  | budgetFreeze => exact h

/-- Witness for C10 at a concrete completed project. -/
theorem completed_monotone_witness :
    (ProjectAction.budgetFreeze.execute
        { project_name := "P", department := "D", is_funded := false,
          budget := 0, is_completed := true, actions := [] }).is_completed = true :=
  completed_monotone _ _ rfl

end Government
